import Mathlib

/-!
Verification of the watch-and-synchronize engine of the cpx repository
(src/lib/utils/watcher.js and its collaborator src copy-file module).

The JavaScript code keeps its per-watcher state in ES2015 Map objects
(the pending-action queue, the retry counters, the per-directory watch
registry).  A Map is modelled here as an association list with unique
keys: lookup returns the value of the first matching key, set replaces
the value in place when the key is present and appends otherwise
(preserving Map insertion-order semantics), and delete removes the
entry of the key.
-/

namespace Cpx

/-- Lookup in the association-list model of a JS Map
(Map.prototype.get). -/
def alookup [DecidableEq κ] : List (κ × β) → κ → Option β
  | [], _ => none
  | (k, v) :: rest, key => if k = key then some v else alookup rest key

/-- Insertion-order-preserving update in the association-list model of a
JS Map (Map.prototype.set): replace in place if present, append
otherwise. -/
def aset [DecidableEq κ] : List (κ × β) → κ → β → List (κ × β)
  | [], key, val => [(key, val)]
  | (k, v) :: rest, key, val =>
    if k = key then (k, val) :: rest else (k, v) :: aset rest key val

/-- Deletion in the association-list model of a JS Map
(Map.prototype.delete). -/
def aerase [DecidableEq κ] : List (κ × β) → κ → List (κ × β)
  | [], _ => []
  | (k, v) :: rest, key =>
    if k = key then aerase rest key else (k, v) :: aerase rest key

/-- Keys of a map, in insertion order. -/
def akeys (m : List (κ × β)) : List κ :=
  m.map (·.1)

/-! ## Pending-action kinds (Watcher#enqueueAdd / enqueueRemove / enqueueChange)

The queue maps a normalized source path to one of the three pending
action kinds stored as the strings "add", "change", "remove" in the
source. -/
/-- Pending action kind, the values "add" / "change" / "remove" stored
in the queue Map of the watcher. -/
inductive Kind where
  | add
  | change
  | remove
deriving DecidableEq, Repr

/-- Pending-action queue: normalized source path to pending kind. -/
abbrev Queue := List (String × Kind)

/-- Embedding of Watcher#enqueueAdd (queue-merge part):
kind := this.queue.get(sourcePath);
this.queue.set(sourcePath, kind == null || kind === "add" ? "add" : "change"). -/
def enqueueAdd (q : Queue) (p : String) : Queue :=
  let kind := alookup q p
  aset q p (if kind = none ∨ kind = some Kind.add then Kind.add else Kind.change)

/-- Embedding of Watcher#enqueueRemove (queue-merge part):
if (kind === "add") this.queue.delete(sourcePath);
else this.queue.set(sourcePath, "remove"). -/
def enqueueRemove (q : Queue) (p : String) : Queue :=
  let kind := alookup q p
  if kind = some Kind.add then aerase q p else aset q p Kind.remove

/-- Embedding of Watcher#enqueueChange (queue-merge part):
this.queue.set(sourcePath, kind === "add" ? "add" : "change"). -/
def enqueueChange (q : Queue) (p : String) : Queue :=
  let kind := alookup q p
  aset q p (if kind = some Kind.add then Kind.add else Kind.change)

/-- Apply one classified event of the given kind to the queue; used to
state the merge table uniformly. -/
def enqueue (q : Queue) (p : String) : Kind → Queue
  | Kind.add => enqueueAdd q p
  | Kind.change => enqueueChange q p
  | Kind.remove => enqueueRemove q p

/-! ## Error codes, events, effects, the copy/remove helpers and the
drain-loop error handling (Watcher#onTrigger, Watcher#shouldRetry) -/
/-- Error codes relevant to the watcher retry logic: the two transient
codes the source inspects ("ENOENT", "EPERM") and a representative for
every other error. -/
inductive ErrC where
  | ENOENT
  | EPERM
  | other
deriving DecidableEq, Repr, Fintype

/-- Observable events emitted by the watcher (copy, remove, watch-error,
watch-ready). -/
inductive Ev where
  | copy (srcPath dstPath : String)
  | removed (path : String)
  | watchError (code : ErrC)
  | watchReady
deriving DecidableEq, Repr

/-- Invocations of the external collaborators (copyFile / removeFile). -/
inductive Eff where
  | copyFileCall (src dst : String)
  | removeFileCall (dst : String)
deriving DecidableEq, Repr

/-- Embedding of Watcher#copy: compute outputPath = toDestination
(sourcePath); if it equals the source path do nothing at all, otherwise
invoke the copyFile collaborator (res is its externally determined
result: none on success, an error code on failure) and on success emit a
copy event carrying source and destination paths. -/
def copyW (toDestination : String → String) (res : Option ErrC)
    (sourcePath : String) : List Eff × Except ErrC (List Ev) :=
  let outputPath := toDestination sourcePath
  if outputPath = sourcePath then ([], Except.ok [])
  else
    ([Eff.copyFileCall sourcePath outputPath],
      match res with
      | some e => Except.error e
      | none => Except.ok [Ev.copy sourcePath outputPath])

/-- Embedding of Watcher#remove: compute outputPath = toDestination
(sourcePath); if it equals the source path do nothing at all, otherwise
invoke the removeFile collaborator and on success emit a remove event
carrying the destination path. -/
def removeW (toDestination : String → String) (res : Option ErrC)
    (sourcePath : String) : List Eff × Except ErrC (List Ev) :=
  let outputPath := toDestination sourcePath
  if outputPath = sourcePath then ([], Except.ok [])
  else
    ([Eff.removeFileCall outputPath],
      match res with
      | some e => Except.error e
      | none => Except.ok [Ev.removed outputPath])

/-- Retry counters: path to consecutive-retry count (the retries Map of
the watcher). -/
abbrev Retries := List (String × Nat)

/-- Embedding of Watcher#shouldRetry: count = retries.get(sourcePath)
or 0; if count is less than 10 store 1 + count and answer true,
otherwise delete the counter and answer false. -/
def shouldRetry (retries : Retries) (sourcePath : String) : Bool × Retries :=
  let count := (alookup retries sourcePath).getD 0
  if count < 10 then (true, aset retries sourcePath (1 + count))
  else (false, aerase retries sourcePath)

/-- Embedding of Watcher#onAdded in the ready state (path already
normalized): if the matcher matches, enqueueAdd. -/
def onAdded (matcher : String → Bool) (q : Queue) (sourcePath : String) : Queue :=
  if matcher sourcePath then enqueueAdd q sourcePath else q

/-- Embedding of Watcher#onRemoved (path already normalized): if the
matcher matches, enqueueRemove. -/
def onRemoved (matcher : String → Bool) (q : Queue) (sourcePath : String) : Queue :=
  if matcher sourcePath then enqueueRemove q sourcePath else q

/-- Embedding of Watcher#onChanged (path already normalized): if the
matcher matches, enqueueChange. -/
def onChanged (matcher : String → Bool) (q : Queue) (sourcePath : String) : Queue :=
  if matcher sourcePath then enqueueChange q sourcePath else q

/-- Outcome classification of one drain-loop iteration for one queue
entry, used to state the retry policy. -/
inductive Outcome where
  | succeeded
  | retried (kind : Kind)
  | propagated (code : ErrC)
  | swallowed
deriving DecidableEq, Repr

/-- Result of one iteration of the Watcher#onTrigger drain loop. -/
structure EntryResult where
  retries : Retries
  queue : Queue
  effs : List Eff
  evs : List Ev
  outcome : Outcome
deriving DecidableEq, Repr

/-- Embedding of one iteration of the Watcher#onTrigger drain loop for
the queue entry (sourcePath, type).  On success the retry counter of the
path is deleted.  On failure of a remove action: EPERM consults
shouldRetry and re-enqueues through onRemoved when it answers true;
every other error except ENOENT is propagated through a watch-error
event; ENOENT is silently ignored.  On failure of a copy action (add or
change): ENOENT or EPERM consults shouldRetry and re-enqueues through
onAdded or onChanged when it answers true; otherwise the error is
propagated through a watch-error event.  The queue argument is the
fresh queue being refilled during the drain. -/
def onTriggerEntry (toDestination : String → String) (matcher : String → Bool)
    (res : Option ErrC) (retries : Retries) (q : Queue)
    (sourcePath : String) (type : Kind) : EntryResult :=
  if type = Kind.remove then
    match removeW toDestination res sourcePath with
    | (effs, Except.ok evs) =>
      { retries := aerase retries sourcePath, queue := q, effs := effs,
        evs := evs, outcome := Outcome.succeeded }
    | (effs, Except.error e) =>
      if e = ErrC.EPERM then
        let sr := shouldRetry retries sourcePath
        if sr.1 then
          { retries := sr.2, queue := onRemoved matcher q sourcePath,
            effs := effs, evs := [], outcome := Outcome.retried Kind.remove }
        else
          { retries := sr.2, queue := q, effs := effs,
            evs := [Ev.watchError e], outcome := Outcome.propagated e }
      else if e ≠ ErrC.ENOENT then
        { retries := retries, queue := q, effs := effs,
          evs := [Ev.watchError e], outcome := Outcome.propagated e }
      else
        { retries := retries, queue := q, effs := effs, evs := [],
          outcome := Outcome.swallowed }
  else
    match copyW toDestination res sourcePath with
    | (effs, Except.ok evs) =>
      { retries := aerase retries sourcePath, queue := q, effs := effs,
        evs := evs, outcome := Outcome.succeeded }
    | (effs, Except.error e) =>
      if e = ErrC.ENOENT ∨ e = ErrC.EPERM then
        let sr := shouldRetry retries sourcePath
        if sr.1 then
          { retries := sr.2,
            queue := if type = Kind.add then onAdded matcher q sourcePath
                     else onChanged matcher q sourcePath,
            effs := effs, evs := [], outcome := Outcome.retried type }
        else
          { retries := sr.2, queue := q, effs := effs,
            evs := [Ev.watchError e], outcome := Outcome.propagated e }
      else
        { retries := retries, queue := q, effs := effs,
          evs := [Ev.watchError e], outcome := Outcome.propagated e }

/-- Iterate the drain-loop handling for n consecutive failing executions
of the same queued action (path p, kind k, error e), starting from empty
retry counters, collecting the retry-counter state and the outcomes. -/
def consecutiveFailures (toDestination : String → String)
    (matcher : String → Bool) (p : String) (e : ErrC) (k : Kind) :
    Nat → Retries × List Outcome
  | 0 => ([], [])
  | n + 1 =>
    let acc := consecutiveFailures toDestination matcher p e k n
    let er := onTriggerEntry toDestination matcher (some e) acc.1 [] p k
    (er.retries, acc.2 ++ [er.outcome])

/-! ## Readiness and the initial-copy counter
(Watcher#onReady, Watcher#onAdded initial-copy path,
Watcher#emitReadyEventIfReady, the onDoneInitialCopy closure) -/
/-- Events affecting readiness during one open(): an initial copy is
started (onAdded with ready still false and initialCopy set increments
initialCopyCount), an initial copy settles (onDoneInitialCopy decrements
the counter and calls emitReadyEventIfReady), or the directory walk
completes (onReady sets the ready flag and calls
emitReadyEventIfReady). -/
inductive InitEvent where
  | startCopy
  | doneCopy
  | setReady
deriving DecidableEq, Repr

/-- Readiness-relevant state of the watcher: the ready flag, the
initialCopyCount (a JS number, so modelled as an integer), and how many
times the watch-ready event has been emitted. -/
structure InitState where
  ready : Bool
  count : Int
  emitted : Nat
deriving DecidableEq, Repr

/-- Embedding of the readiness transitions: startCopy is the
initialCopyCount += 1 in Watcher#onAdded; doneCopy is onDoneInitialCopy
(decrement, then emitReadyEventIfReady); setReady is Watcher#onReady
(set the flag, then emitReadyEventIfReady).  emitReadyEventIfReady emits
watch-ready exactly when ready is set and the counter is zero. -/
def initStep (s : InitState) : InitEvent → InitState
  | InitEvent.startCopy => { s with count := s.count + 1 }
  | InitEvent.doneCopy =>
    { s with
      count := s.count - 1
      emitted := if s.ready = true ∧ s.count - 1 = 0 then s.emitted + 1 else s.emitted }
  | InitEvent.setReady =>
    { ready := true, count := s.count,
      emitted := if s.count = 0 then s.emitted + 1 else s.emitted }

/-- Run the readiness machine from the freshly opened state
(ready = false, counter 0, nothing emitted). -/
def runInit (t : List InitEvent) : InitState :=
  t.foldl initStep { ready := false, count := 0, emitted := 0 }

/-! ## Change classification (Watcher#classifyFileChange) -/
/-- Subset of fs.Stats relevant to classification: whether the path is
a directory. -/
structure FStat where
  isDirectory : Bool
deriving DecidableEq, Repr

/-- What Watcher#classifyFileChange does besides updating the snapshot:
recursively watch a new directory (addDirectory), report an added file
(onAdded), report a changed file (onChanged), recursively unwatch a
removed directory (removeDirectory), report a removed file (onRemoved),
or nothing at all. -/
inductive ClassifyAction where
  | watchDir
  | addFile
  | changeFile
  | unwatchDir
  | removeFileAct
  | ignored
deriving DecidableEq, Repr

/-- Embedding of Watcher#classifyFileChange: guarded by the trigger
being non-null (closed watchers ignore notifications); compares the
current stat of the changed path (none when the stat failed with ENOENT,
that is, the path no longer exists) against the directory snapshot,
updates the snapshot, and selects the resulting action. -/
def classifyFileChange (triggerActive : Bool) (files : List (String × FStat))
    (sourcePath : String) (currStat : Option FStat) :
    ClassifyAction × List (String × FStat) :=
  if triggerActive = false then (ClassifyAction.ignored, files)
  else
    let prevStat := alookup files sourcePath
    match currStat with
    | some c =>
      match prevStat with
      | none =>
        if c.isDirectory then (ClassifyAction.watchDir, aset files sourcePath c)
        else (ClassifyAction.addFile, aset files sourcePath c)
      | some _ =>
        if c.isDirectory = false then
          (ClassifyAction.changeFile, aset files sourcePath c)
        else (ClassifyAction.ignored, files)
    | none =>
      match prevStat with
      | some pv =>
        if pv.isDirectory then (ClassifyAction.unwatchDir, aerase files sourcePath)
        else (ClassifyAction.removeFileAct, aerase files sourcePath)
      | none => (ClassifyAction.ignored, files)

/-! ## The per-directory watch registry
(Watcher#addDirectory, Watcher#removeDirectory, Watcher#close)

Paths are modelled as lists of path segments (the normalized forward
slash-separated components), so that joining a directory path with a
child name is list append. -/
/-- Normalized filesystem path, as its list of segments. -/
abbrev Path := List String

/-- Directory snapshot: child path to whether that child is a
directory (the isDirectory() bit of the stored fs.Stats). -/
abbrev Snapshot := List (Path × Bool)

/-- One entry of the watchers Map: the raw fs.watch handle (modelled as
an identifier) and the directory's snapshot. -/
structure RegEntry where
  handle : Nat
  files : Snapshot
deriving DecidableEq, Repr

/-- The watchers Map of the watcher: directory path to registry
entry. -/
abbrev Registry := List (Path × RegEntry)

/-- Children of a snapshot that are directories, in snapshot order. -/
def dirChildren (files : Snapshot) : List Path :=
  (files.filter (fun x => x.2)).map (fun x => x.1)

/-- Children of a snapshot that are not directories, in snapshot
order. -/
def fileChildren (files : Snapshot) : List Path :=
  (files.filter (fun x => !x.2)).map (fun x => x.1)

/-- Embedding of the while loop of Watcher#removeDirectory: pop a
directory path, delete its registry entry; when it was registered, close
its handle, push the path and then its non-directory children onto the
event stack, and push its directory children onto the work stack (so
they are popped before the rest of the stack).  The source accumulates
the closed handles and the event stack by pushing; this recursion
produces exactly those sequences.  Returns the closed handles in
closing order, the final event stack, and the remaining registry. -/
def rdLoop : List Path → Registry → List Nat × List Path × Registry
  | [], watchers => ([], [], watchers)
  | dirPath :: stack, watchers =>
    match h : alookup watchers dirPath with
    | none => rdLoop stack watchers
    | some entry =>
      let r := rdLoop ((dirChildren entry.files).reverse ++ stack)
        (aerase watchers dirPath)
      (entry.handle :: r.1, (dirPath :: fileChildren entry.files) ++ r.2.1,
        r.2.2)
termination_by stack watchers => (watchers.length, stack.length)
decreasing_by
  · exact Prod.Lex.right _ (by simp)
  · refine Prod.Lex.left _ _ ?_
    have hle : ∀ (m : Registry), (aerase m dirPath).length ≤ m.length := by
      intro m
      induction m with
      | nil => simp [aerase]
      | cons hd tl ih =>
        obtain ⟨a, b⟩ := hd
        by_cases hh : a = dirPath
        · simp only [aerase, if_pos hh]
          exact Nat.le_trans ih (by simp)
        · simp only [aerase, if_neg hh, List.length_cons]
          exact Nat.succ_le_succ ih
    have hlt : ∀ (m : Registry), alookup m dirPath = some entry →
        (aerase m dirPath).length < m.length := by
      intro m
      induction m with
      | nil =>
        intro hm
        simp [alookup] at hm
      | cons hd tl ih =>
        intro hm
        obtain ⟨a, b⟩ := hd
        by_cases hh : a = dirPath
        · have := hle tl
          simp only [aerase, if_pos hh, List.length_cons]
          omega
        · simp only [alookup, if_neg hh] at hm
          simp only [aerase, if_neg hh, List.length_cons]
          exact Nat.succ_lt_succ (ih hm)
    exact hlt watchers h

/-- Embedding of Watcher#removeDirectory: run the loop from the given
root, then walk the event stack backwards calling onRemoved.  Returns
the closed handles, the paths passed to onRemoved in emission order,
and the remaining registry. -/
def removeDirectory (watchers : Registry) (dirRoot : Path) :
    List Nat × List Path × Registry :=
  let r := rdLoop [dirRoot] watchers
  (r.1, r.2.1.reverse, r.2.2)

/-- One teardown-or-report action of Watcher#removeDirectory, in the
order the source performs them: all handle closings happen inside the
while loop, all onRemoved reports happen in the final backwards walk of
the event stack. -/
inductive TAct where
  | closeHandle (h : Nat)
  | emitRemove (p : Path)
deriving DecidableEq, Repr

/-- Action trace of Watcher#removeDirectory: the handle closings of the
loop followed by the onRemoved reports. -/
def removeDirectoryTrace (watchers : Registry) (dirRoot : Path) : List TAct :=
  (removeDirectory watchers dirRoot).1.map TAct.closeHandle ++
    (removeDirectory watchers dirRoot).2.1.map TAct.emitRemove

/-- Embedding of the per-directory callback of Watcher#addDirectory: a
directory discovered by the walk is registered and watched only when
the watcher is still open (this.trigger non-null) and the directory is
not already registered; a symbolic-link directory with dereferencing
disabled is reported through onAdded but never watched.  fresh is the
raw handle the OS returns for the new watch; the returned Bool says
whether a watch was installed. -/
def addDirectoryStep (triggerActive : Bool) (watchers : Registry)
    (dereference : Bool) (isLink : Bool) (fresh : Nat) (dirPath : Path)
    (files : Snapshot) : Registry × Bool :=
  if triggerActive = false ∨ (alookup watchers dirPath).isSome then
    (watchers, false)
  else if dereference = false ∧ isLink = true then (watchers, false)
  else (aset watchers dirPath { handle := fresh, files := files }, true)

/-- Result of Watcher#close: the nulled trigger, the cleared registry
and the handles that were closed. -/
structure CloseResult where
  trigger : Bool
  watchers : Registry
  closedHandles : List Nat
deriving DecidableEq, Repr

/-- Embedding of Watcher#close: clear and null the debounce trigger if
present, close every registered raw watch handle, clear the registry.
The incoming trigger state does not change what is torn down. -/
def closeW (trigger : Bool) (watchers : Registry) : CloseResult :=
  { trigger := false, watchers := [],
    closedHandles := watchers.map (fun e => e.2.handle) }

/-- State accumulated by the Watcher#onTrigger drain over the queue
snapshot. -/
structure DrainState where
  retries : Retries
  queue : Queue
  effs : List Eff
  evs : List Ev
deriving DecidableEq, Repr

/-- Embedding of the full Watcher#onTrigger drain: take the current
queue snapshot (the queue argument), start from an empty refill queue,
process every entry in insertion order with the per-entry retry logic,
then re-arm the debounced trigger exactly when the refilled queue is
nonempty and the trigger has not been torn down by close().  results
gives the external outcome of each collaborator call.  Note the
per-entry processing and its emissions do not consult the trigger: a
drain in flight when close() is called still runs to completion and
still emits its events. -/
def onTrigger (toDestination : String → String) (matcher : String → Bool)
    (results : String → Kind → Option ErrC) (triggerActive : Bool)
    (retries : Retries) (queue : Queue) : DrainState × Bool :=
  let final := queue.foldl
    (fun (st : DrainState) (entry : String × Kind) =>
      let er := onTriggerEntry toDestination matcher (results entry.1 entry.2)
        st.retries st.queue entry.1 entry.2
      { retries := er.retries, queue := er.queue,
        effs := st.effs ++ er.effs, evs := st.evs ++ er.evs })
    { retries := retries, queue := [], effs := [], evs := [] }
  (final, (!final.queue.isEmpty) && triggerActive)

/-! ## The directory walk (walkDirectories) and Watcher#open -/
/-- Filesystem tree for the walk model: a non-directory node, or a
directory carrying its symbolic-link bit (of lstat) and its named
children in readdir order. -/
inductive FsTree where
  | file : FsTree
  | dir (isLink : Bool) (children : List (String × FsTree)) : FsTree
deriving Repr

/-- Stat isDirectory bit of a node (fs.stat follows symbolic links, so
the link bit does not change it here). -/
def FsTree.statIsDir : FsTree → Bool
  | FsTree.file => false
  | FsTree.dir _ _ => true

/-- Embedding of the body of the walkDirectories stack loop over a list
of sibling subtrees below directory path p: each directory yields its
(path, snapshot) pair — the snapshot holds the children in reversed
readdir order because the source iterates the readdir result from the
last index down — and is then descended into in depth-first preorder; a
symbolic-link directory with dereferencing disabled is not read (empty
snapshot) and not descended into. -/
def walkForest (deref : Bool) (p : Path) :
    List (String × FsTree) → List (Path × Snapshot)
  | [] => []
  | (_, FsTree.file) :: rest => walkForest deref p rest
  | (n, FsTree.dir l cs) :: rest =>
    ((p ++ [n],
      if deref || !l then
        cs.reverse.map (fun c => (p ++ [n] ++ [c.1], FsTree.statIsDir c.2))
      else [])
      :: (if deref || !l then walkForest deref (p ++ [n]) cs else []))
    ++ walkForest deref p rest
termination_by l => sizeOf l
decreasing_by
  all_goals simp
  all_goals omega

/-- Embedding of walkDirectories: fs.stat of the root comes first — a
missing root makes that stat reject with ENOENT and the whole walk
reject; a root that is not a directory returns without yielding
anything; a directory root is walked, its own pair first. -/
def walkDirectories (deref : Bool) (rootPath : Path) (root : Option FsTree) :
    Except ErrC (List (Path × Snapshot)) :=
  match root with
  | none => Except.error ErrC.ENOENT
  | some FsTree.file => Except.ok []
  | some (FsTree.dir l cs) =>
    Except.ok
      ((rootPath,
        if deref || !l then
          cs.reverse.map (fun c => (rootPath ++ [c.1], FsTree.statIsDir c.2))
        else [])
        :: (if deref || !l then walkForest deref rootPath cs else []))

/-- Embedding of the walk outcome handling in Watcher#open: the promise
of addDirectory(this.baseDir) fulfilling runs onReady (the watcher
becomes ready; with no initial copies pending watch-ready is emitted);
the promise rejecting runs onError (a watch-error event) and the watcher
never becomes ready.  Returns (becameReady, events). -/
def openW (deref : Bool) (basePath : Path) (root : Option FsTree) :
    Bool × List Ev :=
  match walkDirectories deref basePath root with
  | Except.ok _ => (true, [Ev.watchReady])
  | Except.error e => (false, [Ev.watchError e])

/-! ## The copyFile collaborator (copy-file module) -/
/-- Subset of fs.Stats used by copyFile: the directory bit, the
modification time (getTime of mtime) and the file mode. -/
structure CStat where
  isDirectory : Bool
  mtime : Int
  mode : Nat
deriving DecidableEq, Repr

/-- Filesystem actions performed by the copyFile collaborator. -/
inductive CEff where
  | ensureDir (p : Path)
  | writeContent (src dst : Path)
  | chmod (p : Path) (mode : Nat)
  | chown (p : Path)
  | utimes (p : Path)
deriving DecidableEq, Repr

/-- Embedding of the copyFile collaborator: stat the source (a missing
source rejects with ENOENT); in update mode stat the destination — if
that succeeds and the destination mtime is strictly newer than the
source mtime, return without doing anything; a destination-stat failure
other than ENOENT is rethrown; otherwise ensure the destination
directory exists (the output itself for a directory source, the parent
directory of the output for a file source, creating missing parents),
copy the content for a file source, chmod the output to the source
mode, and with preserve set also chown and set the timestamps. -/
def copyFile (source output : Path) (srcStat : Option CStat)
    (dstStat : Except ErrC CStat) (update preserve : Bool) :
    Except ErrC (List CEff) :=
  match srcStat with
  | none => Except.error ErrC.ENOENT
  | some stat =>
    let body : Except ErrC (List CEff) :=
      Except.ok
        ((if stat.isDirectory then [CEff.ensureDir output]
          else [CEff.ensureDir output.dropLast, CEff.writeContent source output])
          ++ [CEff.chmod output stat.mode]
          ++ (if preserve then [CEff.chown output, CEff.utimes output] else []))
    if update then
      match dstStat with
      | Except.ok d => if d.mtime > stat.mtime then Except.ok [] else body
      | Except.error e => if e ≠ ErrC.ENOENT then Except.error e else body
    else body

/-! ## Tree-shaped registries

A registry produced by actually watching a directory tree is tree
shaped: one entry per directory node, the snapshot of a node listing its
children.  The following spec-side constructions build such registries
from an explicit tree, in the order in which the removeDirectory loop
consumes them (list order of a registry is irrelevant to the Map
semantics, which looks entries up by key). -/
/-- Tree view of a watched directory subtree. -/
inductive FTree where
  | file (name : String)
  | dir (name : String) (children : List FTree)
deriving Repr

/-- Name of the root node of a tree. -/
def FTree.name : FTree → String
  | FTree.file n => n
  | FTree.dir n _ => n

/-- Whether the root node of a tree is a directory. -/
def FTree.isDirB : FTree → Bool
  | FTree.file _ => false
  | FTree.dir _ _ => true

/-- Snapshot recorded for a directory at path q with children cs. -/
def snapOf (q : Path) (cs : List FTree) : Snapshot :=
  cs.map (fun c => (q ++ [c.name], c.isDirB))

/-- Paths of the directory children of a directory at path r. -/
def dirPaths (r : Path) (cs : List FTree) : List Path :=
  (cs.filter (fun c => c.isDirB)).map (fun c => r ++ [c.name])

mutual

/-- Registry entries of the subtree t hanging below directory path q
(empty for a file node), listed in the order the removeDirectory loop
consumes them. -/
def regOfTree (q : Path) : FTree → Registry
  | FTree.file _ => []
  | FTree.dir n cs =>
    (q ++ [n], { handle := 0, files := snapOf (q ++ [n]) cs }) ::
      regOfForestRev (q ++ [n]) cs

/-- Registry entries of a list of sibling subtrees below path r, the
entries of later siblings first (the loop pops pushed directory
children in reverse push order). -/
def regOfForestRev (r : Path) : List FTree → Registry
  | [] => []
  | c :: rest => regOfForestRev r rest ++ regOfTree r c

end

mutual

/-- The event stack the removeDirectory loop builds for the subtree t
below path q: the directory record first, then its non-directory
children, then the segments of its directory children in reverse
order. -/
def stackSpec (q : Path) : FTree → List Path
  | FTree.file _ => []
  | FTree.dir n cs =>
    (q ++ [n]) :: fileChildren (snapOf (q ++ [n]) cs) ++
      stackSpecForestRev (q ++ [n]) cs

/-- Event-stack segments of a list of sibling subtrees below path r,
later siblings first. -/
def stackSpecForestRev (r : Path) : List FTree → List Path
  | [] => []
  | c :: rest => stackSpecForestRev r rest ++ stackSpec r c

end

/-- Distinctness of a list of names. -/
def namesDistinct : List String → Bool
  | [] => true
  | n :: rest => (!(decide (n ∈ rest))) && namesDistinct rest

mutual

/-- Wellformedness of a tree: sibling names are distinct at every
level, so that every directory of the tree has a distinct path. -/
def FTree.wf : FTree → Bool
  | FTree.file _ => true
  | FTree.dir _ cs => namesDistinct (cs.map FTree.name) && forestWF cs

/-- Wellformedness of every tree in a list. -/
def forestWF : List FTree → Bool
  | [] => true
  | c :: rest => c.wf && forestWF rest

end

/-- Subtree occurrence: SubtreeAt q t q' t' says that t' hangs at
parent path q' inside the tree t hanging at parent path q. -/
inductive SubtreeAt : Path → FTree → Path → FTree → Prop where
  | refl (q : Path) (t : FTree) : SubtreeAt q t q t
  | child (q : Path) (n : String) (cs : List FTree) (c : FTree)
      (q' : Path) (t' : FTree) :
      c ∈ cs → SubtreeAt (q ++ [n]) c q' t' →
      SubtreeAt q (FTree.dir n cs) q' t'

instance : Inhabited RegEntry := ⟨{ handle := 0, files := [] }⟩

theorem alookup_aset_self [DecidableEq κ] (m : List (κ × β)) (k : κ) (v : β) :
    alookup (aset m k v) k = some v := by
  induction m with
  | nil => simp [aset, alookup]
  | cons hd tl ih =>
    by_cases h : hd.1 = k
    · simp [aset, alookup, h]
    · simp [aset, alookup, h, ih]

theorem alookup_aset_ne [DecidableEq κ] (m : List (κ × β)) (k k' : κ) (v : β) (h : k' ≠ k) :
    alookup (aset m k v) k' = alookup m k' := by
  induction m with
  | nil => simp [aset, alookup, Ne.symm h]
  | cons hd tl ih =>
    by_cases hh : hd.1 = k
    · have hne : ¬hd.1 = k' := by rw [hh]; exact Ne.symm h
      simp [aset, alookup, hh, hne, Ne.symm h]
    · simp only [aset, if_neg hh]
      by_cases hk : hd.1 = k'
      · simp [alookup, hk]
      · simp [alookup, hk, ih]

theorem alookup_aerase_self [DecidableEq κ] (m : List (κ × β)) (k : κ) :
    alookup (aerase m k) k = none := by
  induction m with
  | nil => simp [aerase, alookup]
  | cons hd tl ih =>
    obtain ⟨a, b⟩ := hd
    by_cases h : a = k
    · simpa [aerase, h] using ih
    · simpa [aerase, alookup, h] using ih

theorem alookup_aerase_ne [DecidableEq κ] (m : List (κ × β)) (k k' : κ) (h : k' ≠ k) :
    alookup (aerase m k) k' = alookup m k' := by
  induction m with
  | nil => simp [aerase, alookup]
  | cons hd tl ih =>
    obtain ⟨a, b⟩ := hd
    by_cases hh : a = k
    · have hne : ¬a = k' := by rw [hh]; exact Ne.symm h
      simp [aerase, alookup, hh, hne, ih, Ne.symm h]
    · by_cases hk : a = k'
      · simp [aerase, alookup, hh, hk, h]
      · simp [aerase, alookup, hh, hk, ih]

theorem aerase_of_alookup_none [DecidableEq κ] (m : List (κ × β)) (k : κ)
    (h : alookup m k = none) : aerase m k = m := by
  induction m with
  | nil => simp [aerase]
  | cons hd tl ih =>
    obtain ⟨a, b⟩ := hd
    by_cases hh : a = k
    · simp [alookup, hh] at h
    · simp only [alookup, if_neg hh] at h
      simp [aerase, hh, ih h]

theorem length_aerase_le [DecidableEq κ] (m : List (κ × β)) (k : κ) :
    (aerase m k).length ≤ m.length := by
  induction m with
  | nil => simp [aerase]
  | cons hd tl ih =>
    obtain ⟨a, b⟩ := hd
    by_cases hh : a = k
    · simp only [aerase, if_pos hh]
      exact Nat.le_trans ih (by simp)
    · simp only [aerase, if_neg hh, List.length_cons]
      exact Nat.succ_le_succ ih

theorem length_aerase_lt [DecidableEq κ] (m : List (κ × β)) (k : κ) (v : β)
    (h : alookup m k = some v) : (aerase m k).length < m.length := by
  induction m with
  | nil => simp [alookup] at h
  | cons hd tl ih =>
    obtain ⟨a, b⟩ := hd
    by_cases hh : a = k
    · simp only [aerase, if_pos hh, List.length_cons]
      exact Nat.lt_succ_of_le (length_aerase_le tl k)
    · simp only [alookup, if_neg hh] at h
      simp only [aerase, if_neg hh, List.length_cons]
      exact Nat.succ_lt_succ (ih h)

/-- C1: merging a newly classified event into the pending-action queue
follows the transition table of the spec: with no existing entry the new
kind is stored as-is; existing Add merged with Add or Change stays Add
and merged with Remove deletes the entry; existing Change merged with
Add or Change stays Change and merged with Remove becomes Remove;
existing Remove merged with Add or Change becomes Change and merged
with Remove stays Remove.  Consequently an Add followed by a Remove on
the same path before any drain leaves no pending action (and touches no
other path), and any number of rapid Change events on one path leave
exactly one pending Change. -/
theorem c1_pending_queue_merge :
    (∀ (q : Queue) (p : String), alookup q p = none →
      alookup (enqueueAdd q p) p = some Kind.add) ∧
    (∀ (q : Queue) (p : String), alookup q p = some Kind.add →
      alookup (enqueueAdd q p) p = some Kind.add) ∧
    (∀ (q : Queue) (p : String), alookup q p = some Kind.change →
      alookup (enqueueAdd q p) p = some Kind.change) ∧
    (∀ (q : Queue) (p : String), alookup q p = some Kind.remove →
      alookup (enqueueAdd q p) p = some Kind.change) ∧
    (∀ (q : Queue) (p : String), alookup q p = none →
      alookup (enqueueChange q p) p = some Kind.change) ∧
    (∀ (q : Queue) (p : String), alookup q p = some Kind.add →
      alookup (enqueueChange q p) p = some Kind.add) ∧
    (∀ (q : Queue) (p : String), alookup q p = some Kind.change →
      alookup (enqueueChange q p) p = some Kind.change) ∧
    (∀ (q : Queue) (p : String), alookup q p = some Kind.remove →
      alookup (enqueueChange q p) p = some Kind.change) ∧
    (∀ (q : Queue) (p : String), alookup q p = none →
      alookup (enqueueRemove q p) p = some Kind.remove) ∧
    (∀ (q : Queue) (p : String), alookup q p = some Kind.add →
      alookup (enqueueRemove q p) p = none) ∧
    (∀ (q : Queue) (p : String), alookup q p = some Kind.change →
      alookup (enqueueRemove q p) p = some Kind.remove) ∧
    (∀ (q : Queue) (p : String), alookup q p = some Kind.remove →
      alookup (enqueueRemove q p) p = some Kind.remove) ∧
    (∀ (q : Queue) (p p' : String), alookup q p = none →
      alookup (enqueueRemove (enqueueAdd q p) p) p = none ∧
      (p' ≠ p → alookup (enqueueRemove (enqueueAdd q p) p) p' = alookup q p')) ∧
    (∀ (q : Queue) (p : String) (n : Nat), alookup q p = none →
      alookup ((fun qq => enqueueChange qq p)^[n + 1] q) p = some Kind.change) := by
  have haddStored : ∀ (q : Queue) (p : String),
      alookup q p = none ∨ alookup q p = some Kind.add →
      enqueueAdd q p = aset q p Kind.add := by
    intro q p h
    rcases h with h | h <;> simp [enqueueAdd, h]
  refine ⟨?_, ?_, ?_, ?_, ?_, ?_, ?_, ?_, ?_, ?_, ?_, ?_, ?_, ?_⟩
  · intro q p h
    simp [enqueueAdd, h, alookup_aset_self]
  · intro q p h
    simp [enqueueAdd, h, alookup_aset_self]
  · intro q p h
    simp [enqueueAdd, h, alookup_aset_self]
  · intro q p h
    simp [enqueueAdd, h, alookup_aset_self]
  · intro q p h
    simp [enqueueChange, h, alookup_aset_self]
  · intro q p h
    simp [enqueueChange, h, alookup_aset_self]
  · intro q p h
    simp [enqueueChange, h, alookup_aset_self]
  · intro q p h
    simp [enqueueChange, h, alookup_aset_self]
  · intro q p h
    simp [enqueueRemove, h, alookup_aset_self]
  · intro q p h
    simp [enqueueRemove, h, alookup_aerase_self]
  · intro q p h
    simp [enqueueRemove, h, alookup_aset_self]
  · intro q p h
    simp [enqueueRemove, h, alookup_aset_self]
  · intro q p p' h
    have h1 : enqueueAdd q p = aset q p Kind.add := haddStored q p (Or.inl h)
    have h2 : alookup (aset q p Kind.add) p = some Kind.add := alookup_aset_self _ _ _
    constructor
    · rw [h1]
      simp [enqueueRemove, h2, alookup_aerase_self]
    · intro hne
      rw [h1]
      simp only [enqueueRemove, h2, reduceIte]
      rw [alookup_aerase_ne _ _ _ hne, alookup_aset_ne _ _ _ _ hne]
  · intro q p n h
    induction n with
    | zero =>
      simp [enqueueChange, h, alookup_aset_self]
    | succ m ih =>
      rw [Function.iterate_succ_apply']
      generalize hq : (fun qq => enqueueChange qq p)^[m + 1] q = q2 at ih
      simp [enqueueChange, ih, alookup_aset_self]

/-- Witness for C1 at concrete inputs: an empty queue, an Add then a
Remove on path a cancels out, and two rapid Changes coalesce to one
pending Change. -/
theorem c1_pending_queue_merge_witness :
    alookup (enqueueRemove (enqueueAdd ([] : Queue) "a") "a") "a" = none ∧
    alookup ((fun qq => enqueueChange qq "a")^[2] ([] : Queue)) "a" =
      some Kind.change :=
  ⟨(c1_pending_queue_merge.2.2.2.2.2.2.2.2.2.2.2.2.1 [] "a" "a" rfl).1,
    c1_pending_queue_merge.2.2.2.2.2.2.2.2.2.2.2.2.2 [] "a" 1 rfl⟩

theorem copyW_error (td : String → String) (p : String) (e : ErrC)
    (hne : td p ≠ p) :
    copyW td (some e) p = ([Eff.copyFileCall p (td p)], Except.error e) := by
  simp [copyW, hne]

theorem copyW_ok (td : String → String) (p : String) (hne : td p ≠ p) :
    copyW td none p = ([Eff.copyFileCall p (td p)], Except.ok [Ev.copy p (td p)]) := by
  simp [copyW, hne]

theorem removeW_error (td : String → String) (p : String) (e : ErrC)
    (hne : td p ≠ p) :
    removeW td (some e) p = ([Eff.removeFileCall (td p)], Except.error e) := by
  simp [removeW, hne]

theorem removeW_ok (td : String → String) (p : String) (hne : td p ≠ p) :
    removeW td none p = ([Eff.removeFileCall (td p)], Except.ok [Ev.removed (td p)]) := by
  simp [removeW, hne]

theorem consecutiveFailures_le10 (td : String → String) (μ : String → Bool)
    (p : String) (hne : td p ≠ p) :
    ∀ n, n ≤ 10 →
      consecutiveFailures td μ p ErrC.EPERM Kind.add n =
        (if n = 0 then [] else [(p, n)],
          List.replicate n (Outcome.retried Kind.add)) := by
  intro n
  induction n with
  | zero =>
    intro _
    simp [consecutiveFailures]
  | succ m ih =>
    intro hm
    have hm10 : m < 10 := Nat.lt_of_succ_le hm
    rw [consecutiveFailures, ih (Nat.le_of_lt hm10)]
    have hc := copyW_error td p ErrC.EPERM hne
    by_cases h0 : m = 0
    · subst h0
      simp [onTriggerEntry, hc, shouldRetry, alookup, aset, List.replicate]
    · simp only [if_neg h0]
      have hcount : (alookup [(p, m)] p).getD 0 = m := by simp [alookup]
      simp [onTriggerEntry, hc, shouldRetry, hcount, hm10, aset,
        Nat.add_comm 1 m, List.replicate_succ' m, h0]

/-- C2 is false as stated: a remove action that fails with ENOENT while
the path's retry counter (0) is below the ceiling is neither re-enqueued
nor propagated through watch-error: the drain loop silently ignores it
(the else-if on error.code !== "ENOENT" in Watcher#onTrigger), leaving
the retry counters untouched and emitting nothing. -/
theorem c2_retry_counterexample :
    (onTriggerEntry (fun s => s ++ "!") (fun _ => true) (some ErrC.ENOENT)
        [] [] "a" Kind.remove).outcome = Outcome.swallowed ∧
    (onTriggerEntry (fun s => s ++ "!") (fun _ => true) (some ErrC.ENOENT)
        [] [] "a" Kind.remove).retries = [] ∧
    (onTriggerEntry (fun s => s ++ "!") (fun _ => true) (some ErrC.ENOENT)
        [] [] "a" Kind.remove).evs = [] ∧
    (alookup ([] : Retries) "a").getD 0 < 10 ∧
    Outcome.swallowed ≠ Outcome.retried Kind.remove ∧
    (∀ e : ErrC, Outcome.swallowed ≠ Outcome.propagated e) := by
  refine ⟨by decide, by decide, by decide, by decide, by decide, by decide⟩

/-- C2 amended: the retry policy of Watcher#onTrigger distinguishes the
action kinds.  For a copy action (add or change): ENOENT or EPERM with
the path's counter below 10 re-enqueues the same action and increments
the counter; ENOENT or EPERM at the ceiling propagates a watch-error and
drops the counter; any other error propagates a watch-error leaving the
counters untouched.  For a remove action: EPERM below the ceiling
re-enqueues and increments; EPERM at the ceiling propagates and drops;
ENOENT is silently ignored (neither retried nor propagated); any other
error propagates.  A success deletes the path's counter and (for a copy
action with effective translation) emits a copy event.  Consequently a
copy action failing transiently 11 consecutive times is retried 10 times
and then surfaces a watch-error with the path dropped, and a success
after 9 consecutive transient failures emits a copy event and deletes
the counter. -/
theorem c2_retry_policy_amended :
    (∀ (td : String → String) (μ : String → Bool) (retries : Retries)
        (q : Queue) (p : String) (k : Kind) (e : ErrC),
      td p ≠ p → k ≠ Kind.remove → (e = ErrC.ENOENT ∨ e = ErrC.EPERM) →
      (alookup retries p).getD 0 < 10 →
      (onTriggerEntry td μ (some e) retries q p k).outcome = Outcome.retried k ∧
      alookup (onTriggerEntry td μ (some e) retries q p k).retries p =
        some (1 + (alookup retries p).getD 0) ∧
      (onTriggerEntry td μ (some e) retries q p k).evs = [] ∧
      (μ p = true → alookup q p = none →
        alookup (onTriggerEntry td μ (some e) retries q p k).queue p = some k)) ∧
    (∀ (td : String → String) (μ : String → Bool) (retries : Retries)
        (q : Queue) (p : String) (k : Kind) (e : ErrC),
      td p ≠ p → k ≠ Kind.remove → (e = ErrC.ENOENT ∨ e = ErrC.EPERM) →
      ¬(alookup retries p).getD 0 < 10 →
      (onTriggerEntry td μ (some e) retries q p k).outcome = Outcome.propagated e ∧
      alookup (onTriggerEntry td μ (some e) retries q p k).retries p = none ∧
      (onTriggerEntry td μ (some e) retries q p k).evs = [Ev.watchError e]) ∧
    (∀ (td : String → String) (μ : String → Bool) (retries : Retries)
        (q : Queue) (p : String) (k : Kind),
      td p ≠ p → k ≠ Kind.remove →
      (onTriggerEntry td μ (some ErrC.other) retries q p k).outcome =
        Outcome.propagated ErrC.other ∧
      (onTriggerEntry td μ (some ErrC.other) retries q p k).retries = retries ∧
      (onTriggerEntry td μ (some ErrC.other) retries q p k).evs =
        [Ev.watchError ErrC.other]) ∧
    (∀ (td : String → String) (μ : String → Bool) (retries : Retries)
        (q : Queue) (p : String),
      td p ≠ p → (alookup retries p).getD 0 < 10 →
      (onTriggerEntry td μ (some ErrC.EPERM) retries q p Kind.remove).outcome =
        Outcome.retried Kind.remove ∧
      alookup (onTriggerEntry td μ (some ErrC.EPERM) retries q p Kind.remove).retries p =
        some (1 + (alookup retries p).getD 0) ∧
      (μ p = true → alookup q p = none →
        alookup (onTriggerEntry td μ (some ErrC.EPERM) retries q p Kind.remove).queue p =
          some Kind.remove)) ∧
    (∀ (td : String → String) (μ : String → Bool) (retries : Retries)
        (q : Queue) (p : String),
      td p ≠ p → ¬(alookup retries p).getD 0 < 10 →
      (onTriggerEntry td μ (some ErrC.EPERM) retries q p Kind.remove).outcome =
        Outcome.propagated ErrC.EPERM ∧
      alookup (onTriggerEntry td μ (some ErrC.EPERM) retries q p Kind.remove).retries p =
        none ∧
      (onTriggerEntry td μ (some ErrC.EPERM) retries q p Kind.remove).evs =
        [Ev.watchError ErrC.EPERM]) ∧
    (∀ (td : String → String) (μ : String → Bool) (retries : Retries)
        (q : Queue) (p : String),
      td p ≠ p →
      (onTriggerEntry td μ (some ErrC.ENOENT) retries q p Kind.remove).outcome =
        Outcome.swallowed ∧
      (onTriggerEntry td μ (some ErrC.ENOENT) retries q p Kind.remove).retries =
        retries ∧
      (onTriggerEntry td μ (some ErrC.ENOENT) retries q p Kind.remove).evs = []) ∧
    (∀ (td : String → String) (μ : String → Bool) (retries : Retries)
        (q : Queue) (p : String),
      td p ≠ p →
      (onTriggerEntry td μ (some ErrC.other) retries q p Kind.remove).outcome =
        Outcome.propagated ErrC.other ∧
      (onTriggerEntry td μ (some ErrC.other) retries q p Kind.remove).retries =
        retries ∧
      (onTriggerEntry td μ (some ErrC.other) retries q p Kind.remove).evs =
        [Ev.watchError ErrC.other]) ∧
    (∀ (td : String → String) (μ : String → Bool) (retries : Retries)
        (q : Queue) (p : String) (k : Kind),
      td p ≠ p → k ≠ Kind.remove →
      (onTriggerEntry td μ none retries q p k).outcome = Outcome.succeeded ∧
      alookup (onTriggerEntry td μ none retries q p k).retries p = none ∧
      (onTriggerEntry td μ none retries q p k).evs = [Ev.copy p (td p)]) ∧
    (∀ (td : String → String) (μ : String → Bool) (p : String),
      td p ≠ p →
      consecutiveFailures td μ p ErrC.EPERM Kind.add 11 =
        ([], List.replicate 10 (Outcome.retried Kind.add) ++
          [Outcome.propagated ErrC.EPERM])) ∧
    (∀ (td : String → String) (μ : String → Bool) (p : String),
      td p ≠ p →
      (onTriggerEntry td μ none
          (consecutiveFailures td μ p ErrC.EPERM Kind.add 9).1 [] p Kind.add).outcome =
        Outcome.succeeded ∧
      alookup (onTriggerEntry td μ none
          (consecutiveFailures td μ p ErrC.EPERM Kind.add 9).1 [] p Kind.add).retries p =
        none ∧
      (onTriggerEntry td μ none
          (consecutiveFailures td μ p ErrC.EPERM Kind.add 9).1 [] p Kind.add).evs =
        [Ev.copy p (td p)]) := by
  have hcopyRetry : ∀ (td : String → String) (μ : String → Bool)
      (retries : Retries) (q : Queue) (p : String) (k : Kind) (e : ErrC),
      td p ≠ p → k ≠ Kind.remove → (e = ErrC.ENOENT ∨ e = ErrC.EPERM) →
      (alookup retries p).getD 0 < 10 →
      onTriggerEntry td μ (some e) retries q p k =
        { retries := aset retries p (1 + (alookup retries p).getD 0),
          queue := if k = Kind.add then onAdded μ q p else onChanged μ q p,
          effs := [Eff.copyFileCall p (td p)], evs := [],
          outcome := Outcome.retried k } := by
    intro td μ retries q p k e h1 h2 h3 h4
    have hc := copyW_error td p e h1
    simp [onTriggerEntry, if_neg h2, hc, if_pos h3, shouldRetry, if_pos h4]
  refine ⟨?_, ?_, ?_, ?_, ?_, ?_, ?_, ?_, ?_, ?_⟩
  · intro td μ retries q p k e h1 h2 h3 h4
    rw [hcopyRetry td μ retries q p k e h1 h2 h3 h4]
    refine ⟨rfl, alookup_aset_self _ _ _, rfl, ?_⟩
    intro hμ hq
    cases k with
    | add => simp [onAdded, hμ, enqueueAdd, hq, alookup_aset_self]
    | change => simp [onChanged, hμ, enqueueChange, hq, alookup_aset_self]
    | remove => exact absurd rfl h2
  · intro td μ retries q p k e h1 h2 h3 h4
    have hc := copyW_error td p e h1
    simp [onTriggerEntry, if_neg h2, hc, if_pos h3, shouldRetry, if_neg h4,
      alookup_aerase_self]
  · intro td μ retries q p k h1 h2
    have hc := copyW_error td p ErrC.other h1
    simp [onTriggerEntry, if_neg h2, hc]
  · intro td μ retries q p h1 h4
    have hc := removeW_error td p ErrC.EPERM h1
    have heq : onTriggerEntry td μ (some ErrC.EPERM) retries q p Kind.remove =
        { retries := aset retries p (1 + (alookup retries p).getD 0),
          queue := onRemoved μ q p,
          effs := [Eff.removeFileCall (td p)], evs := [],
          outcome := Outcome.retried Kind.remove } := by
      simp [onTriggerEntry, hc, shouldRetry, if_pos h4]
    rw [heq]
    refine ⟨rfl, alookup_aset_self _ _ _, ?_⟩
    intro hμ hq
    simp [onRemoved, hμ, enqueueRemove, hq, alookup_aset_self]
  · intro td μ retries q p h1 h4
    have hc := removeW_error td p ErrC.EPERM h1
    simp [onTriggerEntry, hc, shouldRetry, if_neg h4, alookup_aerase_self]
  · intro td μ retries q p h1
    have hc := removeW_error td p ErrC.ENOENT h1
    simp [onTriggerEntry, hc]
  · intro td μ retries q p h1
    have hc := removeW_error td p ErrC.other h1
    simp [onTriggerEntry, hc]
  · intro td μ retries q p k h1 h2
    have hc := copyW_ok td p h1
    simp [onTriggerEntry, if_neg h2, hc, alookup_aerase_self]
  · intro td μ p h1
    rw [consecutiveFailures, consecutiveFailures_le10 td μ p h1 10 (by omega)]
    have hc := copyW_error td p ErrC.EPERM h1
    have hcount : (alookup [(p, 10)] p).getD 0 = 10 := by simp [alookup]
    simp [onTriggerEntry, hc, shouldRetry, hcount, aerase,
      List.replicate_succ' 10]
  · intro td μ p h1
    rw [consecutiveFailures_le10 td μ p h1 9 (by omega)]
    have hc := copyW_ok td p h1
    simp [onTriggerEntry, hc, alookup_aerase_self]

/-- Witness for the amended C2: at concrete inputs a first ENOENT
failure of an add action is retried with counter 1, a remove-action
ENOENT is swallowed, and 11 consecutive EPERM failures of an add action
give 10 retries then a propagated watch-error with the counter gone. -/
theorem c2_retry_policy_amended_witness :
    ((onTriggerEntry (fun s => s ++ "!") (fun _ => true) (some ErrC.ENOENT)
        [] [] "a" Kind.add).outcome = Outcome.retried Kind.add ∧
      alookup (onTriggerEntry (fun s => s ++ "!") (fun _ => true)
        (some ErrC.ENOENT) [] [] "a" Kind.add).retries "a" =
        some (1 + (alookup ([] : Retries) "a").getD 0) ∧
      (onTriggerEntry (fun s => s ++ "!") (fun _ => true) (some ErrC.ENOENT)
        [] [] "a" Kind.add).evs = [] ∧
      ((fun (_ : String) => true) "a" = true → alookup ([] : Queue) "a" = none →
        alookup (onTriggerEntry (fun s => s ++ "!") (fun _ => true)
          (some ErrC.ENOENT) [] [] "a" Kind.add).queue "a" = some Kind.add)) ∧
    consecutiveFailures (fun s => s ++ "!") (fun _ => true) "a"
        ErrC.EPERM Kind.add 11 =
      ([], List.replicate 10 (Outcome.retried Kind.add) ++
        [Outcome.propagated ErrC.EPERM]) :=
  ⟨c2_retry_policy_amended.1 (fun s => s ++ "!") (fun _ => true) [] [] "a"
      Kind.add ErrC.ENOENT (by decide) (by decide) (Or.inl rfl) (by decide),
    c2_retry_policy_amended.2.2.2.2.2.2.2.2.1 (fun s => s ++ "!")
      (fun _ => true) "a" (by decide)⟩

theorem foldl_initStep_no_ready :
    ∀ (t : List InitEvent), InitEvent.setReady ∉ t →
    ∀ (c : Int) (em : Nat),
      t.foldl initStep { ready := false, count := c, emitted := em } =
        { ready := false,
          count := c + (t.count InitEvent.startCopy : Int)
            - (t.count InitEvent.doneCopy : Int),
          emitted := em } := by
  intro t
  induction t with
  | nil =>
    intro _ c em
    simp
  | cons e rest ih =>
    intro hmem c em
    have hns : InitEvent.setReady ∉ rest := fun hm =>
      hmem (List.mem_cons_of_mem _ hm)
    cases e with
    | startCopy =>
      rw [List.foldl_cons]
      have h1 : initStep { ready := false, count := c, emitted := em }
          InitEvent.startCopy = { ready := false, count := c + 1, emitted := em } :=
        rfl
      rw [h1, ih hns (c + 1) em]
      simp [List.count_cons, InitState.mk.injEq]
      omega
    | doneCopy =>
      rw [List.foldl_cons]
      have h1 : initStep { ready := false, count := c, emitted := em }
          InitEvent.doneCopy = { ready := false, count := c - 1, emitted := em } := by
        simp [initStep]
      rw [h1, ih hns (c - 1) em]
      simp [List.count_cons, InitState.mk.injEq]
      omega
    | setReady => exact absurd (List.mem_cons_self _ _) hmem

theorem foldl_initStep_dones :
    ∀ (n : Nat) (c : Int) (em : Nat),
      (List.replicate n InitEvent.doneCopy).foldl initStep
          { ready := true, count := c, emitted := em } =
        { ready := true, count := c - (n : Int),
          emitted := em + (if 1 ≤ c ∧ c ≤ (n : Int) then 1 else 0) } := by
  intro n
  induction n with
  | zero =>
    intro c em
    have h0 : ¬(1 ≤ c ∧ c ≤ ((0 : Nat) : Int)) := by
      simp
      omega
    simp [h0]
    omega
  | succ k ih =>
    intro c em
    rw [List.replicate_succ, List.foldl_cons]
    have h1 : initStep { ready := true, count := c, emitted := em }
        InitEvent.doneCopy =
        { ready := true, count := c - 1,
          emitted := em + (if c - 1 = 0 then 1 else 0) } := by
      by_cases hc : c - 1 = 0 <;> simp [initStep, hc]
    rw [h1, ih (c - 1) (em + (if c - 1 = 0 then 1 else 0))]
    simp only [InitState.mk.injEq, true_and]
    push_cast
    constructor
    · omega
    · by_cases hc1 : c = 1
      · subst hc1
        have h2 : ((1 : Int) - 1 = 0) := by omega
        have h3 : ¬(1 ≤ (1 : Int) - 1 ∧ (1 : Int) - 1 ≤ (k : Int)) := by omega
        have h4 : (1 ≤ (1 : Int) ∧ (1 : Int) ≤ (k : Int) + 1) := by omega
        simp [h2, h3, h4]
      · have h2 : ¬(c - 1 = 0) := by omega
        by_cases h5 : 1 ≤ c - 1 ∧ c - 1 ≤ (k : Int)
        · have h6 : 1 ≤ c ∧ c ≤ (k : Int) + 1 := by omega
          simp [h2, h5, h6]
        · have h6 : ¬(1 ≤ c ∧ c ≤ (k : Int) + 1) := by omega
          simp [h2, h5, h6]
          omega

/-- C3: during one open(), if every initial-copy start happens while the
ready flag is still unset (as in Watcher#onAdded), the walk-completion
event happens exactly once, and every started initial copy eventually
settles (as many doneCopy events as startCopy events), then watch-ready
is emitted exactly once.  Moreover an emission can only happen at an
event after which the ready flag is set and the initial-copy counter is
zero. -/
theorem c3_watch_ready_once :
    (∀ (p q : List InitEvent),
      InitEvent.setReady ∉ p →
      (∀ e ∈ q, e = InitEvent.doneCopy) →
      p.count InitEvent.doneCopy + q.length = p.count InitEvent.startCopy →
      (runInit (p ++ InitEvent.setReady :: q)).emitted = 1) ∧
    (∀ (t : List InitEvent) (e : InitEvent),
      (runInit t).emitted < (runInit (t ++ [e])).emitted →
      (runInit (t ++ [e])).ready = true ∧ (runInit (t ++ [e])).count = 0) := by
  constructor
  · intro p q hp hq hbal
    have hq' : q = List.replicate q.length InitEvent.doneCopy :=
      List.eq_replicate_iff.mpr ⟨rfl, hq⟩
    obtain ⟨n, rfl⟩ : ∃ n, q = List.replicate n InitEvent.doneCopy :=
      ⟨q.length, hq'⟩
    rw [List.length_replicate] at hbal
    unfold runInit
    rw [List.foldl_append, foldl_initStep_no_ready p hp 0 0, List.foldl_cons]
    have hc : 0 + (p.count InitEvent.startCopy : Int)
        - (p.count InitEvent.doneCopy : Int) = (n : Int) := by
      omega
    have hstep : initStep
        { ready := false,
          count := 0 + (p.count InitEvent.startCopy : Int)
            - (p.count InitEvent.doneCopy : Int),
          emitted := 0 } InitEvent.setReady =
        { ready := true, count := (n : Int),
          emitted := if (n : Int) = 0 then 1 else 0 } := by
      have hc' : (p.count InitEvent.startCopy : Int)
          - (p.count InitEvent.doneCopy : Int) = (n : Int) := by omega
      simp [initStep, hc']
    rw [hstep, foldl_initStep_dones n (n : Int) (if (n : Int) = 0 then 1 else 0)]
    rcases Nat.eq_zero_or_pos n with hn | hn
    · subst hn
      simp
    · have h1 : ¬((n : Int) = 0) := by omega
      have h2 : 1 ≤ (n : Int) ∧ (n : Int) ≤ (n : Int) := by omega
      simp [h1, h2]
  · intro t e h
    unfold runInit at h ⊢
    rw [List.foldl_append, List.foldl_cons, List.foldl_nil] at h ⊢
    generalize hs : List.foldl initStep
      { ready := false, count := 0, emitted := 0 } t = s at h ⊢
    cases e with
    | startCopy =>
      exact absurd h (by simp [initStep])
    | doneCopy =>
      by_cases hcond : s.ready = true ∧ s.count - 1 = 0
      · constructor
        · simp [initStep, hcond.1]
        · simp [initStep, hcond.2]
      · exact absurd h (by simp [initStep, hcond])
    | setReady =>
      by_cases hcond : s.count = 0
      · constructor
        · simp [initStep]
        · simp [initStep, hcond]
      · exact absurd h (by simp [initStep, hcond])

/-- Witness for C3: one initial copy started before readiness, the walk
completes, the copy settles afterwards; watch-ready fires exactly
once. -/
theorem c3_watch_ready_once_witness :
    (runInit [InitEvent.startCopy, InitEvent.setReady,
      InitEvent.doneCopy]).emitted = 1 :=
  c3_watch_ready_once.1 [InitEvent.startCopy] [InitEvent.doneCopy]
    (by decide) (by decide) (by decide)

/-- C4: classification against the snapshot yields Add when the path
exists now but is absent from the snapshot (a recursive watch
installation when it is a directory), Remove when it is absent now but
present in the snapshot (a recursive unwatch when it was a directory),
Change when present in both and not currently a directory, and no event
at all when present in both and a directory (or absent from both). -/
theorem c4_classify_file_change :
    (∀ (files : List (String × FStat)) (p : String) (c : FStat),
      alookup files p = none → c.isDirectory = false →
      classifyFileChange true files p (some c) =
        (ClassifyAction.addFile, aset files p c)) ∧
    (∀ (files : List (String × FStat)) (p : String) (c : FStat),
      alookup files p = none → c.isDirectory = true →
      classifyFileChange true files p (some c) =
        (ClassifyAction.watchDir, aset files p c)) ∧
    (∀ (files : List (String × FStat)) (p : String) (c pv : FStat),
      alookup files p = some pv → c.isDirectory = false →
      classifyFileChange true files p (some c) =
        (ClassifyAction.changeFile, aset files p c)) ∧
    (∀ (files : List (String × FStat)) (p : String) (c pv : FStat),
      alookup files p = some pv → c.isDirectory = true →
      classifyFileChange true files p (some c) =
        (ClassifyAction.ignored, files)) ∧
    (∀ (files : List (String × FStat)) (p : String) (pv : FStat),
      alookup files p = some pv → pv.isDirectory = false →
      classifyFileChange true files p none =
        (ClassifyAction.removeFileAct, aerase files p)) ∧
    (∀ (files : List (String × FStat)) (p : String) (pv : FStat),
      alookup files p = some pv → pv.isDirectory = true →
      classifyFileChange true files p none =
        (ClassifyAction.unwatchDir, aerase files p)) ∧
    (∀ (files : List (String × FStat)) (p : String),
      alookup files p = none →
      classifyFileChange true files p none = (ClassifyAction.ignored, files)) := by
  refine ⟨?_, ?_, ?_, ?_, ?_, ?_, ?_⟩
  · intro files p c h1 h2
    simp [classifyFileChange, h1, h2]
  · intro files p c h1 h2
    simp [classifyFileChange, h1, h2]
  · intro files p c pv h1 h2
    simp [classifyFileChange, h1, h2]
  · intro files p c pv h1 h2
    simp [classifyFileChange, h1, h2]
  · intro files p pv h1 h2
    simp [classifyFileChange, h1, h2]
  · intro files p pv h1 h2
    simp [classifyFileChange, h1, h2]
  · intro files p h1
    simp [classifyFileChange, h1]

/-- Witness for C4 at concrete inputs: a new non-directory path is an
added file; a path present in an empty-directory snapshot that vanished
is a removed file. -/
theorem c4_classify_file_change_witness :
    classifyFileChange true [] "a" (some { isDirectory := false }) =
      (ClassifyAction.addFile, aset [] "a" { isDirectory := false }) ∧
    classifyFileChange true [("b", { isDirectory := false })] "b" none =
      (ClassifyAction.removeFileAct,
        aerase [("b", { isDirectory := false })] "b") :=
  ⟨c4_classify_file_change.1 [] "a" { isDirectory := false } rfl rfl,
    c4_classify_file_change.2.2.2.2.1 [("b", { isDirectory := false })] "b"
      { isDirectory := false } (by decide) rfl⟩

/-- C5 is false as stated: a copy operation in flight when close() is
called still emits its copy event.  Concretely, a drain of the single
queued entry (a, add) run with the trigger already torn down
(triggerActive false, as after close()) still produces the copy event:
neither Watcher#onTrigger nor the overridden Watcher#emit consults the
closed state before emitting. -/
theorem c5_close_counterexample :
    (onTrigger (fun s => s ++ "!") (fun _ => true) (fun _ _ => none) false []
        [("a", Kind.add)]).1.evs = [Ev.copy "a" "a!"] ∧
    [Ev.copy "a" "a!"] ≠ ([] : List Ev) := by
  exact ⟨by decide, by decide⟩

/-- C5 amended: close() cancels the debounce trigger, closes every
registered per-directory watch handle and clears the registry, and a
second close() is a no-op (idempotent); after close() newly observed raw
notifications are ignored (classifyFileChange returns nothing when the
trigger is null) and a finishing drain does not re-arm; but the events
of a drain already in flight are emitted exactly as if the watcher were
still open — closing does not silence them. -/
theorem c5_close_semantics_amended :
    (∀ (trigger : Bool) (watchers : Registry),
      (closeW trigger watchers).trigger = false ∧
      (closeW trigger watchers).watchers = [] ∧
      (closeW trigger watchers).closedHandles =
        watchers.map (fun e => e.2.handle)) ∧
    (∀ (trigger : Bool) (watchers : Registry),
      closeW (closeW trigger watchers).trigger
          (closeW trigger watchers).watchers =
        { trigger := false, watchers := [], closedHandles := [] }) ∧
    (∀ (td : String → String) (μ : String → Bool)
        (results : String → Kind → Option ErrC) (retries : Retries)
        (queue : Queue),
      (onTrigger td μ results false retries queue).1 =
        (onTrigger td μ results true retries queue).1) ∧
    (∀ (td : String → String) (μ : String → Bool)
        (results : String → Kind → Option ErrC) (retries : Retries)
        (queue : Queue),
      (onTrigger td μ results false retries queue).2 = false) ∧
    (∀ (files : List (String × FStat)) (p : String) (curr : Option FStat),
      classifyFileChange false files p curr = (ClassifyAction.ignored, files)) := by
  refine ⟨?_, ?_, ?_, ?_, ?_⟩
  · intro trigger watchers
    exact ⟨rfl, rfl, rfl⟩
  · intro trigger watchers
    rfl
  · intro td μ results retries queue
    rfl
  · intro td μ results retries queue
    simp [onTrigger]
  · intro files p curr
    rfl

/-- Witness for the amended C5 at concrete inputs: closing a watcher
with one registered directory closes its handle, clears everything, and
closing again closes nothing. -/
theorem c5_close_semantics_amended_witness :
    ((closeW true [([ "d" ], { handle := 7, files := [] })]).trigger = false ∧
      (closeW true [([ "d" ], { handle := 7, files := [] })]).watchers = [] ∧
      (closeW true [([ "d" ], { handle := 7, files := [] })]).closedHandles =
        [([ "d" ], ({ handle := 7, files := [] } : RegEntry))].map
          (fun e => e.2.handle)) ∧
    closeW (closeW true [([ "d" ], { handle := 7, files := [] })]).trigger
        (closeW true [([ "d" ], { handle := 7, files := [] })]).watchers =
      { trigger := false, watchers := [], closedHandles := [] } :=
  ⟨c5_close_semantics_amended.1 true [([ "d" ], { handle := 7, files := [] })],
    c5_close_semantics_amended.2.1 true
      [([ "d" ], { handle := 7, files := [] })]⟩

/-- C8: a queue entry whose path the configured translation maps to
itself invokes neither the copy collaborator nor the remove collaborator
and emits no event; the refill queue is also untouched, so the
destination tree and the observable event stream are unchanged by that
entry. -/
theorem c8_noop_translation_skips :
    (∀ (td : String → String) (res : Option ErrC) (p : String), td p = p →
      copyW td res p = ([], Except.ok [])) ∧
    (∀ (td : String → String) (res : Option ErrC) (p : String), td p = p →
      removeW td res p = ([], Except.ok [])) ∧
    (∀ (td : String → String) (μ : String → Bool) (res : Option ErrC)
        (retries : Retries) (q : Queue) (p : String) (k : Kind), td p = p →
      (onTriggerEntry td μ res retries q p k).effs = [] ∧
      (onTriggerEntry td μ res retries q p k).evs = [] ∧
      (onTriggerEntry td μ res retries q p k).queue = q) := by
  have h1 : ∀ (td : String → String) (res : Option ErrC) (p : String),
      td p = p → copyW td res p = ([], Except.ok []) := by
    intro td res p h
    simp [copyW, h]
  have h2 : ∀ (td : String → String) (res : Option ErrC) (p : String),
      td p = p → removeW td res p = ([], Except.ok []) := by
    intro td res p h
    simp [removeW, h]
  refine ⟨h1, h2, ?_⟩
  intro td μ res retries q p k h
  by_cases hk : k = Kind.remove
  · simp [onTriggerEntry, hk, h2 td res p h]
  · simp [onTriggerEntry, if_neg hk, h1 td res p h]

/-- Witness for C8: with the identity translation, a failing add entry
still neither invokes a collaborator nor emits nor re-enqueues. -/
theorem c8_noop_translation_skips_witness :
    (onTriggerEntry (fun s => s) (fun _ => true) (some ErrC.EPERM) [] []
      "a" Kind.add).effs = [] ∧
    (onTriggerEntry (fun s => s) (fun _ => true) (some ErrC.EPERM) [] []
      "a" Kind.add).evs = [] ∧
    (onTriggerEntry (fun s => s) (fun _ => true) (some ErrC.EPERM) [] []
      "a" Kind.add).queue = [] :=
  c8_noop_translation_skips.2.2 (fun s => s) (fun _ => true)
    (some ErrC.EPERM) [] [] "a" Kind.add rfl

/-- C6 is false as stated: a nonexistent root does not make the walk
yield nothing — the initial fs.stat of the root rejects with ENOENT,
walkDirectories propagates the rejection, and Watcher#open surfaces it
through watch-error, so the watcher never becomes ready. -/
theorem c6_walk_counterexample :
    walkDirectories false ["x"] none = Except.error ErrC.ENOENT ∧
    openW false ["x"] none = (false, [Ev.watchError ErrC.ENOENT]) ∧
    (∀ dirs : List (Path × Snapshot),
      (Except.error ErrC.ENOENT : Except ErrC (List (Path × Snapshot))) ≠
        Except.ok dirs) :=
  ⟨rfl, rfl, fun _ h => Except.noConfusion h⟩

/-- C6 amended: a root that exists but is not a directory makes the walk
yield no pairs and complete without error, and the watcher still becomes
Ready; a nonexistent root is a walk failure (ENOENT), and every walk
failure — the nonexistent case included — is surfaced through
watch-error and prevents the watcher from reaching Ready. -/
theorem c6_walk_amended :
    (∀ (deref : Bool) (rootPath : Path),
      walkDirectories deref rootPath (some FsTree.file) = Except.ok [] ∧
      openW deref rootPath (some FsTree.file) = (true, [Ev.watchReady])) ∧
    (∀ (deref : Bool) (rootPath : Path),
      walkDirectories deref rootPath none = Except.error ErrC.ENOENT ∧
      openW deref rootPath none = (false, [Ev.watchError ErrC.ENOENT])) ∧
    (∀ (deref : Bool) (rootPath : Path) (root : Option FsTree) (e : ErrC),
      walkDirectories deref rootPath root = Except.error e →
      openW deref rootPath root = (false, [Ev.watchError e])) ∧
    (∀ (deref : Bool) (rootPath : Path) (root : Option FsTree)
        (dirs : List (Path × Snapshot)),
      walkDirectories deref rootPath root = Except.ok dirs →
      openW deref rootPath root = (true, [Ev.watchReady])) := by
  refine ⟨?_, ?_, ?_, ?_⟩
  · intro deref rootPath
    exact ⟨rfl, rfl⟩
  · intro deref rootPath
    exact ⟨rfl, rfl⟩
  · intro deref rootPath root e h
    simp [openW, h]
  · intro deref rootPath root dirs h
    simp [openW, h]

/-- Witness for the amended C6: a single-file root walks to nothing and
the watcher still becomes ready. -/
theorem c6_walk_amended_witness :
    walkDirectories false ["f"] (some FsTree.file) = Except.ok [] ∧
    openW false ["f"] (some FsTree.file) = (true, [Ev.watchReady]) :=
  c6_walk_amended.1 false ["f"]

/-- C9: in update mode copyFile skips whenever the destination exists
with a strictly newer mtime than the source — nothing is written and no
error is raised; when the destination does not exist (its stat fails
with ENOENT) a file source is copied normally: the missing destination
parent directories are created, the content is written, and the mode is
applied; and a destination that is not newer is likewise overwritten. -/
theorem c9_copy_file_update :
    (∀ (source output : Path) (s d : CStat) (preserve : Bool),
      d.mtime > s.mtime →
      copyFile source output (some s) (Except.ok d) true preserve =
        Except.ok []) ∧
    (∀ (source output : Path) (s : CStat) (preserve : Bool),
      s.isDirectory = false →
      copyFile source output (some s) (Except.error ErrC.ENOENT) true preserve =
        Except.ok
          ([CEff.ensureDir output.dropLast, CEff.writeContent source output,
            CEff.chmod output s.mode]
            ++ (if preserve then [CEff.chown output, CEff.utimes output]
                else []))) ∧
    (∀ (source output : Path) (s d : CStat) (preserve : Bool),
      s.isDirectory = false → ¬d.mtime > s.mtime →
      copyFile source output (some s) (Except.ok d) true preserve =
        Except.ok
          ([CEff.ensureDir output.dropLast, CEff.writeContent source output,
            CEff.chmod output s.mode]
            ++ (if preserve then [CEff.chown output, CEff.utimes output]
                else []))) := by
  refine ⟨?_, ?_, ?_⟩
  · intro source output s d preserve h
    simp [copyFile, h]
  · intro source output s preserve h
    simp [copyFile, h]
  · intro source output s d preserve h hm
    simp [copyFile, h, hm]

/-- Witness for C9 at concrete inputs: a newer destination is skipped; a
missing destination is written with its parent directory ensured. -/
theorem c9_copy_file_update_witness :
    copyFile ["s", "f"] ["o", "f"]
        (some { isDirectory := false, mtime := 1, mode := 6 })
        (Except.ok { isDirectory := false, mtime := 2, mode := 6 })
        true false = Except.ok [] ∧
    copyFile ["s", "f"] ["o", "f"]
        (some { isDirectory := false, mtime := 1, mode := 6 })
        (Except.error ErrC.ENOENT) true false =
      Except.ok
        ([CEff.ensureDir (["o", "f"] : Path).dropLast,
          CEff.writeContent ["s", "f"] ["o", "f"],
          CEff.chmod ["o", "f"] 6] ++ []) :=
  ⟨c9_copy_file_update.1 ["s", "f"] ["o", "f"]
      { isDirectory := false, mtime := 1, mode := 6 }
      { isDirectory := false, mtime := 2, mode := 6 } false (by decide),
    c9_copy_file_update.2.1 ["s", "f"] ["o", "f"]
      { isDirectory := false, mtime := 1, mode := 6 } false rfl⟩

theorem akeys_append (A B : List (κ × β)) :
    akeys (A ++ B) = akeys A ++ akeys B :=
  List.map_append _ A B

theorem alookup_append_left [DecidableEq κ] (A B : List (κ × β)) (k : κ)
    (v : β) (h : alookup A k = some v) : alookup (A ++ B) k = some v := by
  induction A with
  | nil => simp [alookup] at h
  | cons hd tl ih =>
    by_cases hh : hd.1 = k
    · simp only [alookup, if_pos hh] at h
      simp [alookup, hh, h]
    · simp only [alookup, if_neg hh] at h
      simpa [alookup, hh] using ih h

theorem alookup_append_right [DecidableEq κ] (A B : List (κ × β)) (k : κ)
    (h : k ∉ akeys A) : alookup (A ++ B) k = alookup B k := by
  induction A with
  | nil => simp
  | cons hd tl ih =>
    have h1 : ¬hd.1 = k := by
      intro he
      exact h (by simp [akeys, he])
    have h2 : k ∉ akeys tl := by
      intro he
      exact h (by simp [akeys] at he ⊢; exact Or.inr he)
    simpa [alookup, h1] using ih h2

theorem aerase_append [DecidableEq κ] (A B : List (κ × β)) (k : κ) :
    aerase (A ++ B) k = aerase A k ++ aerase B k := by
  induction A with
  | nil => simp [aerase]
  | cons hd tl ih =>
    obtain ⟨a, b⟩ := hd
    by_cases hh : a = k
    · simpa [aerase, hh] using ih
    · simpa [aerase, hh] using ih

theorem aerase_not_mem [DecidableEq κ] (A : List (κ × β)) (k : κ)
    (h : k ∉ akeys A) : aerase A k = A := by
  induction A with
  | nil => simp [aerase]
  | cons hd tl ih =>
    have h1 : ¬hd.1 = k := by
      intro he
      exact h (by simp [akeys, he])
    have h2 : k ∉ akeys tl := by
      intro he
      exact h (by simp [akeys] at he ⊢; exact Or.inr he)
    obtain ⟨a, b⟩ := hd
    simp only at h1
    simp [aerase, h1, ih h2]

theorem dirChildren_snapOf (r : Path) (cs : List FTree) :
    dirChildren (snapOf r cs) = dirPaths r cs := by
  induction cs with
  | nil => rfl
  | cons c rest ih =>
    cases hc : c.isDirB <;>
      simp [dirChildren, snapOf, dirPaths, hc, List.filter_cons] at ih ⊢ <;>
      simpa [dirChildren, snapOf, dirPaths] using ih

theorem fileChildren_snapOf_mem (r : Path) (cs : List FTree) (c : FTree)
    (hc : c ∈ cs) (hd : c.isDirB = false) :
    r ++ [c.name] ∈ fileChildren (snapOf r cs) := by
  induction cs with
  | nil => simp at hc
  | cons c0 tl ih =>
    rw [List.mem_cons] at hc
    rcases hc with hc | hc
    · subst hc
      simp [fileChildren, snapOf, List.filter_cons, hd]
    · have hmem := ih hc
      cases hb : c0.isDirB with
      | false =>
        simp only [fileChildren, snapOf, List.map_cons, List.filter_cons,
          hb] at hmem ⊢
        simp at hmem ⊢
        exact Or.inr hmem
      | true =>
        simp only [fileChildren, snapOf, List.map_cons, List.filter_cons,
          hb] at hmem ⊢
        simpa using hmem

theorem rdLoop_cons_none (d : Path) (stack : List Path) (W : Registry)
    (h : alookup W d = none) :
    rdLoop (d :: stack) W = rdLoop stack W := by
  rw [rdLoop]
  split
  · rfl
  · rename_i e he
    rw [h] at he
    exact Option.noConfusion he

theorem rdLoop_cons_some (d : Path) (stack : List Path) (W : Registry)
    (e : RegEntry) (h : alookup W d = some e) :
    rdLoop (d :: stack) W =
      (e.handle ::
        (rdLoop ((dirChildren e.files).reverse ++ stack) (aerase W d)).1,
        (d :: fileChildren e.files) ++
          (rdLoop ((dirChildren e.files).reverse ++ stack) (aerase W d)).2.1,
        (rdLoop ((dirChildren e.files).reverse ++ stack) (aerase W d)).2.2) := by
  rw [rdLoop]
  split
  · rename_i he
    rw [h] at he
    exact Option.noConfusion he
  · rename_i e' he
    rw [h] at he
    injection he with he
    subst he
    rfl

mutual

theorem keys_regOfTree (t : FTree) (q : Path) (k : Path)
    (h : k ∈ akeys (regOfTree q t)) :
    ∃ tail, k = (q ++ [t.name]) ++ tail := by
  cases t with
  | file n => simp [regOfTree, akeys] at h
  | dir n cs =>
    simp only [regOfTree, akeys, List.map_cons] at h
    rw [List.mem_cons] at h
    rcases h with h | h
    · exact ⟨[], by simpa [FTree.name] using h⟩
    · obtain ⟨c, _, tail, ht⟩ :=
        keys_regOfForestRev cs (q ++ [n]) k (by simpa [akeys] using h)
      refine ⟨[c.name] ++ tail, ?_⟩
      rw [ht]
      simp [FTree.name]

theorem keys_regOfForestRev (cs : List FTree) (r : Path) (k : Path)
    (h : k ∈ akeys (regOfForestRev r cs)) :
    ∃ c, c ∈ cs ∧ ∃ tail, k = (r ++ [c.name]) ++ tail := by
  cases cs with
  | nil => simp [regOfForestRev, akeys] at h
  | cons c rest =>
    rw [regOfForestRev, akeys_append] at h
    rw [List.mem_append] at h
    rcases h with h | h
    · obtain ⟨c', hc', tail, ht⟩ := keys_regOfForestRev rest r k h
      exact ⟨c', List.mem_cons_of_mem _ hc', tail, ht⟩
    · obtain ⟨tail, ht⟩ := keys_regOfTree c r k h
      exact ⟨c, List.mem_cons_self _ _, tail, ht⟩

end

theorem self_not_key_forest (ds : List FTree) (s : Path) :
    s ∉ akeys (regOfForestRev s ds) := by
  intro h
  obtain ⟨c, _, tail, ht⟩ := keys_regOfForestRev ds s s h
  have hlen := congrArg List.length ht
  simp [List.length_append] at hlen

theorem forest_keys_not_in_sibling (r : Path) (c : FTree) (cs' : List FTree)
    (hn : c.name ∉ cs'.map FTree.name) (k : Path)
    (hk : k ∈ akeys (regOfForestRev r cs')) :
    k ∉ akeys (regOfTree r c) := by
  intro hk2
  obtain ⟨t1, h1⟩ := keys_regOfTree c r k hk2
  obtain ⟨c', hc', t2, h2'⟩ := keys_regOfForestRev cs' r k hk
  rw [h1, List.append_assoc] at h2'
  rw [List.append_assoc] at h2'
  have h3 := List.append_cancel_left h2'
  have h4 : c.name = c'.name := (List.cons.injEq _ _ _ _).mp h3 |>.1
  exact hn (h4 ▸ List.mem_map_of_mem FTree.name hc')

mutual

theorem rdLoop_tree (n : String) (cs : List FTree) (q : Path)
    (rest : List Path) (Wrest : Registry)
    (hwf : (FTree.dir n cs).wf = true)
    (hdisj : ∀ k, k ∈ akeys (regOfTree q (FTree.dir n cs)) →
      k ∉ akeys Wrest) :
    (rdLoop ((q ++ [n]) :: rest)
        (regOfTree q (FTree.dir n cs) ++ Wrest)).2.1 =
      stackSpec q (FTree.dir n cs) ++ (rdLoop rest Wrest).2.1 ∧
    (rdLoop ((q ++ [n]) :: rest)
        (regOfTree q (FTree.dir n cs) ++ Wrest)).2.2 =
      (rdLoop rest Wrest).2.2 := by
  have hwf' : namesDistinct (cs.map FTree.name) = true ∧ forestWF cs = true := by
    simpa [FTree.wf, Bool.and_eq_true] using hwf
  have hlook : alookup (regOfTree q (FTree.dir n cs) ++ Wrest) (q ++ [n]) =
      some { handle := 0, files := snapOf (q ++ [n]) cs } := by
    simp [regOfTree, alookup]
  have herase : aerase (regOfTree q (FTree.dir n cs) ++ Wrest) (q ++ [n]) =
      regOfForestRev (q ++ [n]) cs ++ Wrest := by
    rw [aerase_append]
    have h1 : aerase (regOfTree q (FTree.dir n cs)) (q ++ [n]) =
        regOfForestRev (q ++ [n]) cs := by
      rw [regOfTree]
      rw [show aerase
          ((q ++ [n], ({ handle := 0, files := snapOf (q ++ [n]) cs } : RegEntry))
            :: regOfForestRev (q ++ [n]) cs) (q ++ [n]) =
          aerase (regOfForestRev (q ++ [n]) cs) (q ++ [n]) by simp [aerase]]
      exact aerase_not_mem _ _ (self_not_key_forest cs (q ++ [n]))
    have h2 : aerase Wrest (q ++ [n]) = Wrest :=
      aerase_not_mem _ _ (hdisj (q ++ [n]) (by simp [regOfTree, akeys]))
    rw [h1, h2]
  rw [rdLoop_cons_some _ _ _ _ hlook]
  simp only [herase, dirChildren_snapOf]
  obtain ⟨ih1, ih2⟩ := rdLoop_forest cs (q ++ [n]) rest Wrest hwf'.1 hwf'.2
    (fun k hk => hdisj k (by
      simp only [regOfTree, akeys, List.map_cons, List.mem_cons]
      exact Or.inr (by simpa [akeys] using hk)))
  constructor
  · rw [ih1, stackSpec]
    simp [List.append_assoc]
  · exact ih2

theorem rdLoop_forest (cs : List FTree) (r : Path) (rest : List Path)
    (Wrest : Registry)
    (hnd : namesDistinct (cs.map FTree.name) = true)
    (hfw : forestWF cs = true)
    (hdisj : ∀ k, k ∈ akeys (regOfForestRev r cs) → k ∉ akeys Wrest) :
    (rdLoop ((dirPaths r cs).reverse ++ rest)
        (regOfForestRev r cs ++ Wrest)).2.1 =
      stackSpecForestRev r cs ++ (rdLoop rest Wrest).2.1 ∧
    (rdLoop ((dirPaths r cs).reverse ++ rest)
        (regOfForestRev r cs ++ Wrest)).2.2 =
      (rdLoop rest Wrest).2.2 := by
  cases cs with
  | nil =>
    simp [dirPaths, regOfForestRev, stackSpecForestRev]
  | cons c cs' =>
    have hnd' : (c.name ∉ cs'.map FTree.name) ∧
        namesDistinct (cs'.map FTree.name) = true := by
      simpa [namesDistinct, Bool.and_eq_true] using hnd
    have hfw' : c.wf = true ∧ forestWF cs' = true := by
      simpa [forestWF, Bool.and_eq_true] using hfw
    cases c with
    | file m =>
      have e1 : dirPaths r (FTree.file m :: cs') = dirPaths r cs' := by
        simp [dirPaths, List.filter_cons, FTree.isDirB]
      have e2 : regOfForestRev r (FTree.file m :: cs') =
          regOfForestRev r cs' := by
        simp [regOfForestRev, regOfTree]
      have e3 : stackSpecForestRev r (FTree.file m :: cs') =
          stackSpecForestRev r cs' := by
        simp [stackSpecForestRev, stackSpec]
      rw [e1, e2, e3]
      exact rdLoop_forest cs' r rest Wrest hnd'.2 hfw'.2
        (fun k hk => hdisj k (by rw [e2]; exact hk))
    | dir m ds =>
      have e1 : dirPaths r (FTree.dir m ds :: cs') =
          (r ++ [m]) :: dirPaths r cs' := by
        simp [dirPaths, List.filter_cons, FTree.isDirB, FTree.name]
      have estack : (dirPaths r (FTree.dir m ds :: cs')).reverse ++ rest =
          (dirPaths r cs').reverse ++ ((r ++ [m]) :: rest) := by
        rw [e1]
        simp [List.reverse_cons, List.append_assoc]
      have ereg : regOfForestRev r (FTree.dir m ds :: cs') ++ Wrest =
          regOfForestRev r cs' ++ (regOfTree r (FTree.dir m ds) ++ Wrest) := by
        rw [regOfForestRev]
        simp [List.append_assoc]
      rw [estack, ereg]
      have hdisj1 : ∀ k, k ∈ akeys (regOfForestRev r cs') →
          k ∉ akeys (regOfTree r (FTree.dir m ds) ++ Wrest) := by
        intro k hk
        rw [akeys_append, List.mem_append]
        rintro (hbad | hbad)
        · exact forest_keys_not_in_sibling r (FTree.dir m ds) cs'
            (by simpa [FTree.name] using hnd'.1) k hk hbad
        · exact hdisj k (by
            rw [regOfForestRev, akeys_append, List.mem_append]
            exact Or.inl hk) hbad
      obtain ⟨ih1, ih2⟩ := rdLoop_forest cs' r ((r ++ [m]) :: rest)
        (regOfTree r (FTree.dir m ds) ++ Wrest) hnd'.2 hfw'.2 hdisj1
      have hdisjT : ∀ k, k ∈ akeys (regOfTree r (FTree.dir m ds)) →
          k ∉ akeys Wrest := fun k hk => hdisj k (by
        rw [regOfForestRev, akeys_append, List.mem_append]
        exact Or.inr hk)
      obtain ⟨jh1, jh2⟩ := rdLoop_tree m ds r rest Wrest hfw'.1 hdisjT
      constructor
      · rw [ih1, jh1, stackSpecForestRev]
        simp [List.append_assoc]
      · rw [ih2, jh2]

end

theorem removeDirectory_tree (n : String) (cs : List FTree) (q : Path)
    (hwf : (FTree.dir n cs).wf = true) :
    (removeDirectory (regOfTree q (FTree.dir n cs)) (q ++ [n])).2.1 =
      (stackSpec q (FTree.dir n cs)).reverse := by
  have h := (rdLoop_tree n cs q [] [] hwf (by simp [akeys])).1
  rw [List.append_nil] at h
  unfold removeDirectory
  simp only []
  rw [h]
  simp [rdLoop]

theorem stackSpecForestRev_segment (r : Path) (cs : List FTree) (c : FTree)
    (hc : c ∈ cs) :
    ∃ X Y, stackSpecForestRev r cs = X ++ stackSpec r c ++ Y := by
  induction cs with
  | nil => simp at hc
  | cons c0 tl ih =>
    rw [List.mem_cons] at hc
    rcases hc with hc | hc
    · subst hc
      exact ⟨stackSpecForestRev r tl, [], by simp [stackSpecForestRev]⟩
    · obtain ⟨X, Y, hXY⟩ := ih hc
      refine ⟨X, Y ++ stackSpec r c0, ?_⟩
      rw [stackSpecForestRev, hXY]
      simp [List.append_assoc]

theorem subtree_segment (q : Path) (t : FTree) (q' : Path) (t' : FTree)
    (h : SubtreeAt q t q' t') :
    ∃ X Y, stackSpec q t = X ++ stackSpec q' t' ++ Y := by
  induction h with
  | refl q t => exact ⟨[], [], by simp⟩
  | child q n cs c q' t' hc _ ih =>
    obtain ⟨X, Y, hXY⟩ := ih
    obtain ⟨U, V, hUV⟩ := stackSpecForestRev_segment (q ++ [n]) cs c hc
    refine ⟨(q ++ [n]) :: fileChildren (snapOf (q ++ [n]) cs) ++ U ++ X,
      Y ++ V, ?_⟩
    rw [stackSpec, hUV, hXY]
    simp [List.append_assoc]

/-- C7: removing a watched directory (given as a wellformed tree-shaped
registry rooted at q ++ [n]) reports, through onRemoved, the root
directory's record as the very last event; every non-directory path
recorded in the root's snapshot is reported; and for every directory
subtree of the tree, the events of that subtree form one contiguous
segment whose last event is that directory's own record, with every
non-directory path of its snapshot reported strictly inside the segment
before it — children before their directory, the root last. -/
theorem c7_remove_directory_events (q : Path) (n : String) (cs : List FTree)
    (hwf : (FTree.dir n cs).wf = true) :
    ((removeDirectory (regOfTree q (FTree.dir n cs)) (q ++ [n])).2.1).getLast? =
      some (q ++ [n]) ∧
    (∀ p, p ∈ fileChildren (snapOf (q ++ [n]) cs) →
      p ∈ (removeDirectory (regOfTree q (FTree.dir n cs)) (q ++ [n])).2.1) ∧
    (∀ (q' : Path) (n' : String) (cs' : List FTree),
      SubtreeAt q (FTree.dir n cs) q' (FTree.dir n' cs') →
      ∃ (A tail B : List Path),
        (removeDirectory (regOfTree q (FTree.dir n cs)) (q ++ [n])).2.1 =
          A ++ (tail.reverse ++ [q' ++ [n']]) ++ B ∧
        (∀ p, p ∈ fileChildren (snapOf (q' ++ [n']) cs') → p ∈ tail)) := by
  rw [removeDirectory_tree n cs q hwf]
  refine ⟨?_, ?_, ?_⟩
  · rw [stackSpec, List.cons_append, List.reverse_cons]
    exact List.getLast?_concat _
  · intro p hp
    rw [stackSpec, List.cons_append, List.mem_reverse, List.mem_cons]
    exact Or.inr (List.mem_append_left _ hp)
  · intro q' n' cs' hsub
    obtain ⟨X, Y, hXY⟩ := subtree_segment q (FTree.dir n cs) q'
      (FTree.dir n' cs') hsub
    refine ⟨Y.reverse,
      fileChildren (snapOf (q' ++ [n']) cs') ++
        stackSpecForestRev (q' ++ [n']) cs',
      X.reverse, ?_, ?_⟩
    · rw [hXY]
      rw [show stackSpec q' (FTree.dir n' cs') =
          (q' ++ [n']) :: (fileChildren (snapOf (q' ++ [n']) cs') ++
            stackSpecForestRev (q' ++ [n']) cs') from rfl]
      simp [List.reverse_append, List.reverse_cons, List.append_assoc]
    · intro p hp
      exact List.mem_append_left _ hp

/-- Witness for C7 at a concrete two-level tree (a root directory with
one file and one subdirectory holding a file): the root record is the
last reported event, and the root's file is among the events. -/
theorem c7_remove_directory_events_witness :
    ((removeDirectory
        (regOfTree []
          (FTree.dir "r" [FTree.file "f", FTree.dir "s" [FTree.file "g"]]))
        ([] ++ ["r"])).2.1).getLast? = some ([] ++ ["r"]) ∧
    ["r", "f"] ∈ (removeDirectory
        (regOfTree []
          (FTree.dir "r" [FTree.file "f", FTree.dir "s" [FTree.file "g"]]))
        ([] ++ ["r"])).2.1 :=
  ⟨(c7_remove_directory_events [] "r"
      [FTree.file "f", FTree.dir "s" [FTree.file "g"]] (by decide)).1,
    (c7_remove_directory_events [] "r"
      [FTree.file "f", FTree.dir "s" [FTree.file "g"]] (by decide)).2.1
      ["r", "f"] (by decide)⟩

theorem mem_akeys_aset [DecidableEq κ] (m : List (κ × β)) (k x : κ) (v : β)
    (h : x ∈ akeys (aset m k v)) : x ∈ akeys m ∨ x = k := by
  induction m with
  | nil =>
    simp [aset, akeys] at h
    exact Or.inr h
  | cons hd tl ih =>
    obtain ⟨a, b⟩ := hd
    by_cases hh : a = k
    · simp only [aset, if_pos hh, akeys, List.map_cons, List.mem_cons] at h
      rcases h with h | h
      · exact Or.inl (by simp [akeys, h])
      · exact Or.inl (by simp [akeys]; exact Or.inr (by simpa [akeys] using h))
    · simp only [aset, if_neg hh, akeys, List.map_cons, List.mem_cons] at h
      rcases h with h | h
      · exact Or.inl (by simp [akeys, h])
      · rcases ih (by simpa [akeys] using h) with h2 | h2
        · exact Or.inl (by simp [akeys]; exact Or.inr (by simpa [akeys] using h2))
        · exact Or.inr h2

theorem akeys_aset_nodup [DecidableEq κ] (m : List (κ × β)) (k : κ) (v : β)
    (h : (akeys m).Nodup) : (akeys (aset m k v)).Nodup := by
  induction m with
  | nil => simp [aset, akeys]
  | cons hd tl ih =>
    obtain ⟨a, b⟩ := hd
    simp only [akeys, List.map_cons, List.nodup_cons] at h
    by_cases hh : a = k
    · simp only [aset, if_pos hh, akeys, List.map_cons, List.nodup_cons]
      exact ⟨by simpa [akeys] using h.1, by simpa [akeys] using h.2⟩
    · simp only [aset, if_neg hh, akeys, List.map_cons, List.nodup_cons]
      refine ⟨?_, by simpa [akeys] using ih (by simpa [akeys] using h.2)⟩
      intro hmem
      rcases mem_akeys_aset tl k a v (by simpa [akeys] using hmem) with h2 | h2
      · exact h.1 (by simpa [akeys] using h2)
      · exact hh h2

theorem aerase_sublist [DecidableEq κ] (m : List (κ × β)) (k : κ) :
    List.Sublist (aerase m k) m := by
  induction m with
  | nil => simp [aerase]
  | cons hd tl ih =>
    obtain ⟨a, b⟩ := hd
    by_cases hh : a = k
    · simp only [aerase, if_pos hh]
      exact ih.trans (List.sublist_cons_self _ _)
    · simp only [aerase, if_neg hh]
      exact ih.cons₂ _

theorem rdLoop_registry_sublist (stack : List Path) (W : Registry) :
    List.Sublist (rdLoop stack W).2.2 W := by
  induction stack, W using rdLoop.induct with
  | case1 W => simp [rdLoop]
  | case2 d stack W h ih =>
    rw [rdLoop_cons_none _ _ _ h]
    exact ih
  | case3 d stack W e h ih =>
    rw [rdLoop_cons_some _ _ _ _ h]
    exact ih.trans (aerase_sublist _ _)

/-- C10: the watch registry holds at most one raw watch handle per
directory path in every reachable state: the addDirectory callback
installs nothing when the watcher is closed (trigger null) and nothing
when the directory is already registered, installs exactly one entry
otherwise, and both installation and removal preserve distinctness of
the registered directory paths; removeDirectory closes the registered
handle of the removed root, and in its action trace every handle
closing precedes every onRemoved report. -/
theorem c10_registry_invariants :
    (∀ (W : Registry) (deref isLink : Bool) (fresh : Nat) (d : Path)
        (files : Snapshot),
      addDirectoryStep false W deref isLink fresh d files = (W, false)) ∧
    (∀ (trig : Bool) (W : Registry) (deref isLink : Bool) (fresh : Nat)
        (d : Path) (files : Snapshot),
      (alookup W d).isSome = true →
      addDirectoryStep trig W deref isLink fresh d files = (W, false)) ∧
    (∀ (W : Registry) (deref isLink : Bool) (fresh : Nat) (d : Path)
        (files : Snapshot),
      alookup W d = none → ¬(deref = false ∧ isLink = true) →
      addDirectoryStep true W deref isLink fresh d files =
        (aset W d { handle := fresh, files := files }, true)) ∧
    (∀ (trig : Bool) (W : Registry) (deref isLink : Bool) (fresh : Nat)
        (d : Path) (files : Snapshot),
      (akeys W).Nodup →
      (akeys (addDirectoryStep trig W deref isLink fresh d files).1).Nodup) ∧
    (∀ (W : Registry) (r : Path),
      (akeys W).Nodup → (akeys (removeDirectory W r).2.2).Nodup) ∧
    (∀ (W : Registry) (r : Path) (e : RegEntry),
      alookup W r = some e → e.handle ∈ (removeDirectory W r).1) ∧
    (∀ (W : Registry) (r : Path),
      (∀ a, a ∈ (removeDirectory W r).1.map TAct.closeHandle →
        ∃ hh, a = TAct.closeHandle hh) ∧
      (∀ a, a ∈ (removeDirectory W r).2.1.map TAct.emitRemove →
        ∃ p, a = TAct.emitRemove p) ∧
      removeDirectoryTrace W r =
        (removeDirectory W r).1.map TAct.closeHandle ++
          (removeDirectory W r).2.1.map TAct.emitRemove) := by
  refine ⟨?_, ?_, ?_, ?_, ?_, ?_, ?_⟩
  · intro W deref isLink fresh d files
    simp [addDirectoryStep]
  · intro trig W deref isLink fresh d files h
    simp [addDirectoryStep, h]
  · intro W deref isLink fresh d files h1 h2
    simp [addDirectoryStep, h1, h2]
  · intro trig W deref isLink fresh d files hnd
    unfold addDirectoryStep
    split
    · exact hnd
    · split
      · exact hnd
      · exact akeys_aset_nodup W d _ hnd
  · intro W r hnd
    have hsub := rdLoop_registry_sublist [r] W
    have : List.Sublist (akeys (rdLoop [r] W).2.2) (akeys W) := List.Sublist.map _ hsub
    exact (hnd.sublist this)
  · intro W r e h
    unfold removeDirectory
    rw [rdLoop_cons_some _ _ _ _ h]
    exact List.mem_cons_self _ _
  · intro W r
    refine ⟨?_, ?_, rfl⟩
    · intro a ha
      rw [List.mem_map] at ha
      obtain ⟨hh, _, hEq⟩ := ha
      exact ⟨hh, hEq.symm⟩
    · intro a ha
      rw [List.mem_map] at ha
      obtain ⟨p, _, hEq⟩ := ha
      exact ⟨p, hEq.symm⟩

/-- Witness for C10 at concrete inputs: a closed watcher gains no watch
for a fresh directory, an already-registered directory is not watched
twice, and removing a registered root closes its handle. -/
theorem c10_registry_invariants_witness :
    addDirectoryStep false [] true false 5 ["d"] [] = ([], false) ∧
    addDirectoryStep true [(["d"], { handle := 3, files := [] })] true false 5
      ["d"] [] = ([(["d"], { handle := 3, files := [] })], false) ∧
    (3 : Nat) ∈ (removeDirectory [(["d"], { handle := 3, files := [] })]
      ["d"]).1 :=
  ⟨c10_registry_invariants.1 [] true false 5 ["d"] [],
    c10_registry_invariants.2.1 true [(["d"], { handle := 3, files := [] })]
      true false 5 ["d"] [] (by decide),
    c10_registry_invariants.2.2.2.2.2.1
      [(["d"], { handle := 3, files := [] })] ["d"]
      { handle := 3, files := [] } (by decide)⟩

end Cpx

